import Mathlib

/-!
Verification of the backup artifact packaging and retention-rotation engine
of `src/automation/database_backup.py` (class `DatabaseBackup`).

The embedding models filenames as `List Char`, timestamps as integer seconds
since 1970-01-01 00:00:00 (naive local time, as `datetime.now()`), and the
backup directory as a listing of names together with the state of each
metadata sidecar.  Calendar conversions implement the proleptic Gregorian
calendar (the civil-from-days / days-from-civil algorithms), which is what
`datetime.strftime` keys are computed from.
-/

namespace DBBackup

/-! ### Calendar arithmetic -/

/-- Gregorian leap-year rule, as used by `datetime`. -/
def isLeap (y : Int) : Bool :=
  (y % 4 == 0 && y % 100 != 0) || (y % 400 == 0)

/-- Number of days in month `m` of year `y`. -/
def daysInMonth (y m : Int) : Int :=
  if m = 2 then (if isLeap y then 29 else 28)
  else if m = 4 ∨ m = 6 ∨ m = 9 ∨ m = 11 then 30
  else 31

/-- Days since 1970-01-01 of the civil date `(y, m, d)`
(standard days-from-civil algorithm, floor divisions throughout). -/
def daysFromCivil (y m d : Int) : Int :=
  let y1 := y - (if m ≤ 2 then 1 else 0)
  let era := Int.fdiv y1 400
  let yoe := y1 - era * 400
  let mp := if m > 2 then m - 3 else m + 9
  let doy := Int.fdiv (153 * mp + 2) 5 + d - 1
  let doe := yoe * 365 + Int.fdiv yoe 4 - Int.fdiv yoe 100 + doy
  era * 146097 + doe - 719468

/-- A civil calendar date. -/
structure Date where
  year : Int
  month : Int
  day : Int
deriving DecidableEq

/-- Civil date of day number `z` (days since 1970-01-01;
standard civil-from-days algorithm). -/
def civilFromDays (z0 : Int) : Date :=
  let z := z0 + 719468
  let era := Int.fdiv z 146097
  let doe := z - era * 146097
  let yoe := Int.fdiv (doe - Int.fdiv doe 1460 + Int.fdiv doe 36524 - Int.fdiv doe 146096) 365
  let y := yoe + era * 400
  let doy := doe - (365 * yoe + Int.fdiv yoe 4 - Int.fdiv yoe 100)
  let mp := Int.fdiv (5 * doy + 2) 153
  let d := doy - Int.fdiv (153 * mp + 2) 5 + 1
  let m := mp + (if mp < 10 then 3 else -9)
  ⟨y + (if m ≤ 2 then 1 else 0), m, d⟩

/-- Monday-based weekday (0 = Monday) of day number `z`;
1970-01-01 was a Thursday (value 3). -/
def mondayWeekday (z : Int) : Int := (z + 3) % 7

/-- Zero-based day of the year of day number `z`. -/
def dayOfYear0 (z : Int) : Int := z - daysFromCivil (civilFromDays z).year 1 1

/-- Day number (days since epoch) of the timestamp `ts` (seconds since epoch). -/
def tsDate (ts : Int) : Int := Int.fdiv ts 86400

/-- The `backup_date.strftime("%Y-W%W")` week key of a timestamp, modelled as a
`(year, week number)` pair.  `%W` counts weeks with Monday as first day, days
before the first Monday of a year being week 0.  The string rendering of the
key is injective in this pair, so list membership of keys is preserved. -/
def weekKey (ts : Int) : Int × Int :=
  let z := tsDate ts
  ((civilFromDays z).year, Int.fdiv (dayOfYear0 z + 7 - mondayWeekday z) 7)

/-- The `backup_date.strftime("%Y-%m")` month key of a timestamp, modelled as a
`(year, month)` pair (injectively rendered by the format string). -/
def monthKey (ts : Int) : Int × Int :=
  let dt := civilFromDays (tsDate ts)
  (dt.year, dt.month)

/-- `(now - backup_date).days`: `datetime.timedelta` normalises its day count
with floor division of the total seconds. -/
def ageDays (now ts : Int) : Int := Int.fdiv (now - ts) 86400

/-! ### Character-list string utilities

Python string/`pathlib` operations used by the source, modelled on `List Char`
so that everything reduces structurally. -/

/-- `s.split(c)` for a one-character separator: `"a_b".split("_") = ["a","b"]`,
`"".split("_") = [""]`, `"_".split("_") = ["", ""]`. -/
def splitOnC (c : Char) : List Char → List (List Char)
  | [] => [[]]
  | x :: xs =>
    match splitOnC c xs with
    | h :: t => if x = c then [] :: h :: t else (x :: h) :: t
    | [] => [[x]]

/-- Splits a name at its last `'.'`: returns `(before, after)` without the dot,
or `none` when there is no dot. -/
def lastDotSplit : List Char → Option (List Char × List Char)
  | [] => none
  | x :: xs =>
    match lastDotSplit xs with
    | some (b, a) => some (x :: b, a)
    | none => if x = '.' then some ([], xs) else none

/-- `pathlib.PurePath(name).suffix`: the final extension with its dot, empty
when the last dot is the first character or the last character. -/
def pathSuffix (name : List Char) : List Char :=
  match lastDotSplit name with
  | some (b, a) => if b ≠ [] ∧ a ≠ [] then '.' :: a else []
  | none => []

/-- `pathlib.PurePath(name).stem`: the name without its `pathSuffix`. -/
def pathStem (name : List Char) : List Char :=
  match lastDotSplit name with
  | some (b, a) => if b ≠ [] ∧ a ≠ [] then b else name
  | none => name

/-- Numeric value of a digit string. -/
def digitsToNat (s : List Char) : Nat :=
  s.foldl (fun a c => a * 10 + (c.toNat - 48)) 0

/-- Validates calendar/clock ranges (as `datetime(...)` construction does) and
returns the timestamp in seconds since epoch. -/
def mkTimestamp (y mo d h mi se : Int) : Option Int :=
  if 1 ≤ y ∧ y ≤ 9999 ∧ 1 ≤ mo ∧ mo ≤ 12 ∧ 1 ≤ d ∧ d ≤ daysInMonth y mo ∧
      0 ≤ h ∧ h ≤ 23 ∧ 0 ≤ mi ∧ mi ≤ 59 ∧ 0 ≤ se ∧ se ≤ 59 then
    (daysFromCivil y mo d * 86400 + h * 3600 + mi * 60 + se) |> some
  else none

/-- Models `datetime.strptime(s, "%Y%m%d%H%M%S")` on the strings the filename
fallback feeds it: succeeds exactly on 14 digit characters encoding a valid
date and time of day, and fails (raising `ValueError`, observed as `none`)
otherwise — in particular on any string containing a non-digit. -/
def strptimeYmdHms (s : List Char) : Option Int :=
  if s.length = 14 ∧ s.all Char.isDigit then
    mkTimestamp (digitsToNat (s.take 4)) (digitsToNat ((s.drop 4).take 2))
      (digitsToNat ((s.drop 6).take 2)) (digitsToNat ((s.drop 8).take 2))
      (digitsToNat ((s.drop 10).take 2)) (digitsToNat ((s.drop 12).take 2))
  else none

/-- Models `datetime.fromisoformat` on the canonical strings the packager
writes (`YYYY-MM-DDTHH:MM:SS`, a space also accepted as the separator);
anything else is an unparsable timestamp (`ValueError`, observed as `none`). -/
def fromIso (s : List Char) : Option Int :=
  let sub : Nat → Nat → List Char := fun i k => (s.drop i).take k
  if s.length = 19 ∧ (sub 0 4).all Char.isDigit ∧ sub 4 1 = ['-'] ∧
      (sub 5 2).all Char.isDigit ∧ sub 7 1 = ['-'] ∧ (sub 8 2).all Char.isDigit ∧
      (sub 10 1 = ['T'] ∨ sub 10 1 = [' ']) ∧ (sub 11 2).all Char.isDigit ∧
      sub 13 1 = [':'] ∧ (sub 14 2).all Char.isDigit ∧ sub 16 1 = [':'] ∧
      (sub 17 2).all Char.isDigit then
    mkTimestamp (digitsToNat (sub 0 4)) (digitsToNat (sub 5 2)) (digitsToNat (sub 8 2))
      (digitsToNat (sub 11 2)) (digitsToNat (sub 14 2)) (digitsToNat (sub 17 2))
  else none

/-- Strict lexicographic order on character lists (Python string `<`). -/
def lexLt : List Char → List Char → Bool
  | [], [] => false
  | [], _ :: _ => true
  | _ :: _, [] => false
  | x :: xs, y :: ys => if x = y then lexLt xs ys else decide (x < y)

/-! ### Metadata sidecars and the Catalog Scanner (`_get_backup_date`, scan loops) -/

/-- The content of a metadata sidecar as far as dating is concerned: the value
of its `"timestamp"` field if that key is present.  (The other fields are not
consulted by `_get_backup_date`.) -/
structure Sidecar where
  timestamp : Option (List Char)
deriving DecidableEq

/-- State of the sidecar file `name + ".json"` of an artifact: absent,
existing but with `json.load` raising, or existing with parsed content. -/
inductive SidecarFile where
  | absent
  | corrupt
  | present (sc : Sidecar)
deriving DecidableEq

/-- The filename-fallback block of `_get_backup_date`: split the stem on
`'_'`; with at least 3 parts, `strptime(parts[-2] + parts[-1], "%Y%m%d%H%M%S")`;
otherwise (or when `strptime` raises) the date is `None`. -/
def parseFilenameDate (name : List Char) : Option Int :=
  match (splitOnC '_' (pathStem name)).reverse with
  | last :: snd :: _ :: _ => strptimeYmdHms (snd ++ last)
  | _ => none

/-- `DatabaseBackup._get_backup_date`: if the sidecar file exists, its
`timestamp` field is parsed — any exception on this path (unreadable JSON,
missing key, unparsable value) is caught and yields `None` without trying the
filename; only when the sidecar file does not exist is the filename parsed. -/
def get_backup_date (name : List Char) (scf : SidecarFile) : Option Int :=
  match scf with
  | .corrupt => none
  | .present sc =>
    match sc.timestamp with
    | none => none
    | some s => fromIso s
  | .absent => parseFilenameDate name

/-- The backup directory as seen by the scanner: the entries of
`output_dir` in enumeration (glob) order, the sidecar state attached to each
artifact name (state of the file `name + ".json"`), and each file's size. -/
structure FS where
  listing : List (List Char)
  sidecar : List Char → SidecarFile
  size : List Char → Nat

/-- The candidate filter shared by `rotate_backups` and `list_backups`:
`output_dir.glob(f"{db_type}_*")` plus the extension check
`suffix in [".sql", ".dump", ".archive", ".gz"] or (suffix == ".db" and db_type == "sqlite")`. -/
def matchesScan (db_type : String) (n : List Char) : Bool :=
  List.isPrefixOf (db_type.data ++ ['_']) n &&
  (decide (pathSuffix n ∈ [".sql".data, ".dump".data, ".archive".data, ".gz".data]) ||
    (decide (pathSuffix n = ".db".data) && decide (db_type = "sqlite")))

/-- The scan loop of `rotate_backups` (lines 355–361): each matching file with
a recoverable backup date becomes a `(filepath, backup_date)` entry; files
whose date is `None` are skipped. -/
def scanEntries (db_type : String) (fs : FS) : List (List Char × Int) :=
  (fs.listing.filter (matchesScan db_type)).filterMap fun n =>
    (get_backup_date n (fs.sidecar n)).map fun t => (n, t)

/-! ### Stable descending sort (`list.sort(key=..., reverse=True)`) -/

/-- Insert `x` in front of the first element it is not key-below; together
with `sortDescBy` this is the unique stable descending-by-key reordering,
which is what Python's stable `list.sort(key=..., reverse=True)` produces. -/
def insertDescBy (lt : α → α → Bool) (x : α) : List α → List α
  | [] => [x]
  | y :: ys => if lt x y then y :: insertDescBy lt x ys else x :: y :: ys

/-- Stable descending sort by the strict comparison `lt`. -/
def sortDescBy (lt : α → α → Bool) (l : List α) : List α :=
  l.foldr (insertDescBy lt) []

/-! ### Retention decision (`rotate_backups`, lines 363–392) -/

/-- The retention policy: `keep_days` / `keep_weekly` / `keep_monthly`
constructor arguments of `DatabaseBackup`. -/
structure Policy where
  keep_days : Int
  keep_weekly : Int
  keep_monthly : Int
deriving DecidableEq

/-- End of the weekly window: `keep_days + keep_weekly * 7`. -/
def weekBound (p : Policy) : Int := p.keep_days + p.keep_weekly * 7

/-- End of the monthly window:
`keep_days + keep_weekly * 7 + keep_monthly * 30`. -/
def monthBound (p : Policy) : Int := p.keep_days + p.keep_weekly * 7 + p.keep_monthly * 30

/-- The mutable state of the rotation loop: the `weekly_kept` and
`monthly_kept` key lists and the accumulated `to_delete` list. -/
structure RotState where
  weekly_kept : List (Int × Int)
  monthly_kept : List (Int × Int)
  to_delete : List (List Char)
deriving DecidableEq

/-- One iteration of the rotation loop body (lines 369–392): entries younger
than `keep_days` are kept outright; then the weekly window keeps the first
entry of each week key; an entry that falls through (week already kept, or
outside the weekly window) is tried against the monthly window the same way;
what remains is appended to `to_delete`. -/
def processEntry (p : Policy) (now : Int) (s : RotState) (e : List Char × Int) : RotState :=
  if ageDays now e.2 < p.keep_days then s
  else if ageDays now e.2 < weekBound p ∧ weekKey e.2 ∉ s.weekly_kept then
    { s with weekly_kept := s.weekly_kept ++ [weekKey e.2] }
  else if ageDays now e.2 < monthBound p ∧ monthKey e.2 ∉ s.monthly_kept then
    { s with monthly_kept := s.monthly_kept ++ [monthKey e.2] }
  else
    { s with to_delete := s.to_delete ++ [e.1] }

/-- The decision part of `rotate_backups`: sort the scanned entries by date
descending (`backups.sort(key=lambda x: x[1], reverse=True)`) and run the
loop. -/
def rotateDecision (p : Policy) (now : Int) (entries : List (List Char × Int)) : RotState :=
  (sortDescBy (fun a b => decide (a.2 < b.2)) entries).foldl (processEntry p now) ⟨[], [], []⟩

/-- `rotate_backups` up to (and excluding) the deletion loop: scan the
directory, then compute the rotation decision. -/
def rotate_backups_decision (db_type : String) (p : Policy) (now : Int) (fs : FS) : RotState :=
  rotateDecision p now (scanEntries db_type fs)

/-! ### Deletion loop (`rotate_backups`, lines 398–410) -/

/-- The files present in the backup directory while deletions run.
Directory entries are unique, so removal drops every occurrence of a name. -/
structure DirState where
  present : List (List Char)
deriving DecidableEq

/-- Result of the deletion loop: either the loop ran to completion, or an
uncaught exception from `unlink` escaped at some file, with the directory
state at that moment.  `deleted` is the `stats["backups_deleted"]` counter. -/
inductive DelOutcome where
  | completed (deleted : Nat) (dir : DirState)
  | aborted (deleted : Nat) (failedAt : List Char) (dir : DirState)
deriving DecidableEq

/-- Remove a name from the directory. -/
def removeFile (d : DirState) (f : List Char) : DirState :=
  ⟨d.present.filter fun g => decide (g ≠ f)⟩

/-- The deletion loop of `rotate_backups`: for each file marked for deletion,
`filepath.unlink()` — which raises `FileNotFoundError` when the file is
already gone and propagates permission errors (`failing`) — then the sidecar
is removed if it exists (its `unlink` may equally raise), then the deletion
counter is incremented.  No exception is caught anywhere in the loop. -/
def runDeletions (failing : List Char → Bool) :
    List (List Char) → DirState → Nat → DelOutcome
  | [], d, cnt => .completed cnt d
  | f :: rest, d, cnt =>
    if f ∈ d.present then
      if failing f then .aborted cnt f d
      else
        let d1 := removeFile d f
        let meta := f ++ ".json".data
        if meta ∈ d1.present then
          if failing meta then .aborted cnt meta d1
          else runDeletions failing rest (removeFile d1 meta) (cnt + 1)
        else runDeletions failing rest d1 (cnt + 1)
    else .aborted cnt f d

/-! ### Compression (`_compress_file`) and the backup pipeline (`backup`) -/

/-- Result of `_compress_file` on a directory content: either an exception
propagated (with the directory as it then stands), or the compressed path is
returned. -/
inductive CompressResult where
  | raised (files : List (List Char))
  | done (files : List (List Char)) (out : List Char)
deriving DecidableEq

/-- `DatabaseBackup._compress_file`: the target is `filepath` with `".gz"`
appended to its suffix; opening a missing source or an uncreatable
destination raises before anything is written; an I/O error during the
streamed copy raises after the (partial) destination exists; only after a
fully successful copy is the raw file unlinked.  `dstCreatable` and `copyOk`
model the environment at the two later failure points. -/
def compress_file (files : List (List Char)) (src : List Char)
    (dstCreatable copyOk : Bool) : CompressResult :=
  if src ∉ files then .raised files
  else if ¬ dstCreatable then .raised files
  else if ¬ copyOk then .raised (files ++ [src ++ ".gz".data])
  else .done ((files.filter fun g => decide (g ≠ src)) ++ [src ++ ".gz".data])
    (src ++ ".gz".data)

/-- The metadata fields of the sidecar written by `backup` that the claims
are about. -/
structure Metadata where
  database_type : String
  filename : List Char
  compressed : Bool
deriving DecidableEq

/-- The per-engine artifact extension chosen by `backup`. -/
def extensionFor (db_type : String) : List Char :=
  if db_type = "postgresql" then ".dump".data
  else if db_type = "mongodb" then ".archive".data
  else ".sql".data

/-- `DatabaseBackup.backup` after the connection defaults: the capture writes
`{db_type}_{db_name}_{timestamp}{ext}`; on capture failure the partial file
is removed and `None` returned; compression runs only when the `compress`
option is set and the type is not mongodb (an exception from it propagates,
modelled as `none`); finally the metadata sidecar is written with
`compressed = compress or db_type == "mongodb"`. -/
def backupRun (db_type : String) (db_name ts : List Char) (compress captureOk : Bool)
    (files : List (List Char)) (dstCreatable copyOk : Bool) :
    Option (List (List Char) × List Char × Metadata) :=
  let filename := db_type.data ++ '_' :: (db_name ++ '_' :: (ts ++ extensionFor db_type))
  if ¬ captureOk then none
  else
    let files1 := files ++ [filename]
    let step : Option (List (List Char) × List Char) :=
      if compress ∧ ¬ db_type = "mongodb" then
        match compress_file files1 filename dstCreatable copyOk with
        | .raised _ => none
        | .done fl out => (fl, out) |> some
      else (files1, filename) |> some
    match step with
    | none => none
    | some (files2, out) =>
      (files2 ++ [out ++ ".json".data], out,
        ({ database_type := db_type, filename := out,
           compressed := compress ∨ db_type = "mongodb" } : Metadata)) |> some

/-! ### `list_backups` -/

/-- One row of `list_backups`: filename, recovered date (possibly `None`),
the age in days at call time (`None` when undated), and the file size. -/
structure BackupInfo where
  filename : List Char
  date : Option Int
  age_days : Option Int
  size : Nat
deriving DecidableEq

/-- Key comparison used by `backups.sort(key=lambda x: x["date"] or "", reverse=True)`:
`None` becomes `""`, which is below every ISO timestamp string, and ISO
strings compare chronologically. -/
def optLtDate (a b : Option Int) : Bool :=
  match a, b with
  | none, none => false
  | none, some _ => true
  | some _, none => false
  | some x, some y => decide (x < y)

/-- The rows of `list_backups` before sorting, in enumeration order: every
matching file is included, dated or not. -/
def scanInfos (db_type : String) (now : Int) (fs : FS) : List BackupInfo :=
  (fs.listing.filter (matchesScan db_type)).map fun n =>
    let d := get_backup_date n (fs.sidecar n)
    { filename := n, date := d, age_days := d.map (ageDays now), size := fs.size n }

/-- `DatabaseBackup.list_backups`: collect every matching file, then sort by
date descending (stable; missing dates sort below everything). -/
def list_backups (db_type : String) (now : Int) (fs : FS) : List BackupInfo :=
  sortDescBy (fun a b => optLtDate a.date b.date) (scanInfos db_type now fs)

/-! ### Helper lemmas -/

/-- Floor division is monotone in the numerator (positive divisor). -/
theorem fdiv_le_fdiv_of_le {a b c : Int} (hc : 0 < c) (h : a ≤ b) :
    Int.fdiv a c ≤ Int.fdiv b c := by
  by_contra hlt
  push_neg at hlt
  have h1 : Int.fdiv b c + 1 ≤ Int.fdiv a c := hlt
  have hb := Int.fdiv_add_fmod b c
  have ha := Int.fdiv_add_fmod a c
  have hbm : Int.fmod b c < c := Int.fmod_lt_of_pos b hc
  have ham : 0 ≤ Int.fmod a c := Int.fmod_nonneg' a hc
  have hmul : c * (Int.fdiv b c + 1) ≤ c * Int.fdiv a c :=
    mul_le_mul_of_nonneg_left h1 (le_of_lt hc)
  have hexp : c * (Int.fdiv b c + 1) = c * Int.fdiv b c + c := by ring
  linarith

/-- Ages only grow as `now` advances. -/
theorem ageDays_mono_now {now1 now2 t : Int} (h : now1 ≤ now2) :
    ageDays now1 t ≤ ageDays now2 t :=
  fdiv_le_fdiv_of_le (by norm_num) (by omega)

/-- An older entry is at least as old as a newer one. -/
theorem ageDays_anti_ts {now t t' : Int} (h : t' ≤ t) :
    ageDays now t ≤ ageDays now t' :=
  fdiv_le_fdiv_of_le (by norm_num) (by omega)

theorem processEntry_daily {p : Policy} {now : Int} {s : RotState} {e : List Char × Int}
    (h : ageDays now e.2 < p.keep_days) : processEntry p now s e = s := by
  unfold processEntry
  rw [if_pos h]

theorem processEntry_week {p : Policy} {now : Int} {s : RotState} {e : List Char × Int}
    (h1 : ¬ ageDays now e.2 < p.keep_days) (h2 : ageDays now e.2 < weekBound p)
    (h3 : weekKey e.2 ∉ s.weekly_kept) :
    processEntry p now s e = { s with weekly_kept := s.weekly_kept ++ [weekKey e.2] } := by
  unfold processEntry
  rw [if_neg h1, if_pos ⟨h2, h3⟩]

theorem processEntry_month {p : Policy} {now : Int} {s : RotState} {e : List Char × Int}
    (h1 : ¬ ageDays now e.2 < p.keep_days)
    (h2 : ¬ (ageDays now e.2 < weekBound p ∧ weekKey e.2 ∉ s.weekly_kept))
    (h3 : ageDays now e.2 < monthBound p) (h4 : monthKey e.2 ∉ s.monthly_kept) :
    processEntry p now s e = { s with monthly_kept := s.monthly_kept ++ [monthKey e.2] } := by
  unfold processEntry
  rw [if_neg h1, if_neg h2, if_pos ⟨h3, h4⟩]

theorem processEntry_delete {p : Policy} {now : Int} {s : RotState} {e : List Char × Int}
    (h1 : ¬ ageDays now e.2 < p.keep_days)
    (h2 : ¬ (ageDays now e.2 < weekBound p ∧ weekKey e.2 ∉ s.weekly_kept))
    (h3 : ¬ (ageDays now e.2 < monthBound p ∧ monthKey e.2 ∉ s.monthly_kept)) :
    processEntry p now s e = { s with to_delete := s.to_delete ++ [e.1] } := by
  unfold processEntry
  rw [if_neg h1, if_neg h2, if_neg h3]

/-- Componentwise inclusion of rotation-loop states. -/
def stateSub (s s' : RotState) : Prop :=
  (∀ w ∈ s.weekly_kept, w ∈ s'.weekly_kept) ∧
  (∀ m ∈ s.monthly_kept, m ∈ s'.monthly_kept) ∧
  (∀ x ∈ s.to_delete, x ∈ s'.to_delete)

/-- The loop body only appends to the three lists. -/
theorem stateSub_processEntry (p : Policy) (now : Int) (s : RotState) (e : List Char × Int) :
    stateSub s (processEntry p now s e) := by
  unfold processEntry stateSub
  split_ifs <;>
    exact ⟨fun w hw => by simp [List.mem_append, hw],
           fun m hm => by simp [List.mem_append, hm],
           fun x hx => by simp [List.mem_append, hx]⟩

/-- Anything in the loop body's `to_delete` output was already scheduled or is
the entry just processed. -/
theorem processEntry_to_delete_cases {p : Policy} {now : Int} {s : RotState}
    {e : List Char × Int} {x : List Char} (hx : x ∈ (processEntry p now s e).to_delete) :
    x ∈ s.to_delete ∨ x = e.1 := by
  unfold processEntry at hx
  split_ifs at hx <;> (try simp [List.mem_append] at hx) <;> tauto

/-- Every deleted file of a loop run is either pre-scheduled or one of the
processed entries. -/
theorem foldl_to_delete_cases (p : Policy) (now : Int) :
    ∀ (l : List (List Char × Int)) (s : RotState) (x : List Char),
      x ∈ (l.foldl (processEntry p now) s).to_delete →
      x ∈ s.to_delete ∨ ∃ t, (x, t) ∈ l := by
  intro l
  induction l with
  | nil => intro s x hx; exact Or.inl hx
  | cons e rest ih =>
    intro s x hx
    rcases ih (processEntry p now s e) x hx with h | h
    · rcases processEntry_to_delete_cases h with h' | h'
      · exact Or.inl h'
      · exact Or.inr ⟨e.2, by simp [h']⟩
    · rcases h with ⟨t, ht⟩
      exact Or.inr ⟨t, List.mem_cons_of_mem _ ht⟩

/-! ### Sorting lemmas -/

theorem mem_insertDescBy (lt : α → α → Bool) (x : α) (l : List α) (z : α) :
    z ∈ insertDescBy lt x l ↔ z = x ∨ z ∈ l := by
  induction l with
  | nil => simp [insertDescBy]
  | cons y ys ih =>
    unfold insertDescBy
    by_cases h : lt x y = true
    · rw [if_pos h]
      simp [ih]
      tauto
    · rw [if_neg h]
      simp

theorem pairwise_insertDescBy {R : α → α → Prop} {lt : α → α → Bool}
    (h1 : ∀ a b, lt a b = false → R a b) (h2 : ∀ a b, lt a b = true → R b a)
    (htrans : ∀ a b c, R a b → R b c → R a c) (x : α) :
    ∀ l : List α, List.Pairwise R l → List.Pairwise R (insertDescBy lt x l) := by
  intro l
  induction l with
  | nil => intro _; simp [insertDescBy]
  | cons y ys ih =>
    intro hl
    rw [List.pairwise_cons] at hl
    unfold insertDescBy
    by_cases h : lt x y = true
    · rw [if_pos h, List.pairwise_cons]
      constructor
      · intro z hz
        rcases (mem_insertDescBy lt x ys z).mp hz with rfl | hz'
        · exact h2 _ _ h
        · exact hl.1 z hz'
      · exact ih hl.2
    · rw [if_neg h, List.pairwise_cons]
      have hxy : R x y := h1 _ _ (by revert h; cases lt x y <;> simp)
      constructor
      · intro z hz
        rcases List.mem_cons.mp hz with rfl | hz'
        · exact hxy
        · exact htrans _ _ _ hxy (hl.1 z hz')
      · exact List.pairwise_cons.mpr hl

theorem pairwise_sortDescBy {R : α → α → Prop} {lt : α → α → Bool}
    (h1 : ∀ a b, lt a b = false → R a b) (h2 : ∀ a b, lt a b = true → R b a)
    (htrans : ∀ a b c, R a b → R b c → R a c) (l : List α) :
    List.Pairwise R (sortDescBy lt l) := by
  induction l with
  | nil => simp [sortDescBy]
  | cons x xs ih => exact pairwise_insertDescBy h1 h2 htrans x _ ih

theorem insertDescBy_perm (lt : α → α → Bool) (x : α) :
    ∀ l : List α, List.Perm (insertDescBy lt x l) (x :: l) := by
  intro l
  induction l with
  | nil => exact List.Perm.refl _
  | cons y ys ih =>
    unfold insertDescBy
    by_cases h : lt x y = true
    · rw [if_pos h]
      exact List.Perm.trans (List.Perm.cons y ih) (List.Perm.swap x y ys)
    · rw [if_neg h]

theorem sortDescBy_perm (lt : α → α → Bool) (l : List α) :
    List.Perm (sortDescBy lt l) l := by
  induction l with
  | nil => exact List.Perm.refl _
  | cons x xs ih =>
    exact List.Perm.trans (insertDescBy_perm lt x (sortDescBy lt xs)) (List.Perm.cons x ih)

/-- Inserting below every key-equal element: filtering to a fixed key is
unchanged, which is the stability of the sort. -/
theorem filter_insertDescBy (lt : α → α → Bool) (P : α → Bool) (x : α) :
    ∀ l : List α, (P x = true → ∀ y ∈ l, lt x y = true → P y = false) →
      List.filter P (insertDescBy lt x l) = List.filter P (x :: l) := by
  intro l
  induction l with
  | nil => intro _; rfl
  | cons y ys ih =>
    intro hskip
    unfold insertDescBy
    by_cases h : lt x y = true
    · rw [if_pos h]
      have ihe := ih fun hPx z hz hlt => hskip hPx z (List.mem_cons_of_mem _ hz) hlt
      by_cases hPx : P x = true
      · have hPy : P y = false := hskip hPx y (List.mem_cons_self _ _) h
        simp [List.filter_cons, hPy, hPx, ihe]
      · have hPx' : P x = false := by revert hPx; cases P x <;> simp
        simp [List.filter_cons, hPx', ihe]
    · rw [if_neg h]

/-- Stability of the descending sort: elements of any fixed key keep their
input order. -/
theorem filter_sortDescBy (lt : α → α → Bool) (P : α → Bool)
    (hcompat : ∀ a b, P a = true → P b = true → lt a b = false) (l : List α) :
    List.filter P (sortDescBy lt l) = List.filter P l := by
  induction l with
  | nil => rfl
  | cons x xs ih =>
    show List.filter P (insertDescBy lt x (sortDescBy lt xs)) = _
    rw [filter_insertDescBy lt P x (sortDescBy lt xs) ?hs]
    · simp [List.filter_cons, ih]
    case hs =>
      intro hPx y _ hlt
      by_contra hPy
      have hPy' : P y = true := by revert hPy; cases P y <;> simp
      rw [hcompat x y hPx hPy'] at hlt
      cases hlt

theorem optLtDate_asymm {a b : Option Int} (h : optLtDate a b = true) :
    optLtDate b a = false := by
  cases a <;> cases b <;> simp [optLtDate] at * <;> omega

theorem optLtDate_irrefl (a : Option Int) : optLtDate a a = false := by
  cases a <;> simp [optLtDate]

theorem optLtDate_neg_trans {a b c : Option Int} (h1 : optLtDate a b = false)
    (h2 : optLtDate b c = false) : optLtDate a c = false := by
  cases a <;> cases b <;> cases c <;> simp [optLtDate] at * <;> omega

/-- The scanned entries come out of the sort in descending date order. -/
theorem sortDescBy_entries_pairwise (l : List (List Char × Int)) :
    List.Pairwise (fun a b : List Char × Int => b.2 ≤ a.2)
      (sortDescBy (fun a b => decide (a.2 < b.2)) l) := by
  apply pairwise_sortDescBy (fun a b h => ?_) (fun a b h => ?_) (fun a b c hab hbc => ?_)
  · simp only [decide_eq_false_iff_not, not_lt] at h
    exact h
  · exact le_of_lt (of_decide_eq_true h)
  · exact le_trans hbc hab

/-! ### The monotone-expiry invariant -/

/-- Relates the loop state at an earlier `now1` (`s1`) to the state at a later
`now2` (`s2`), given the entries `l` still to be processed: every claimed week
(resp. month) key of `s1` is either claimed in `s2` or belongs to a bucket
whose remaining entries have all aged past the window at `now2`; and
everything `s1` scheduled is scheduled in `s2`. -/
def decisionLE (p : Policy) (now2 : Int) (l : List (List Char × Int))
    (s1 s2 : RotState) : Prop :=
  (∀ w ∈ s1.weekly_kept, w ∈ s2.weekly_kept ∨
      ∀ e ∈ l, weekKey e.2 = w → weekBound p ≤ ageDays now2 e.2) ∧
  (∀ m ∈ s1.monthly_kept, m ∈ s2.monthly_kept ∨
      ∀ e ∈ l, monthKey e.2 = m → monthBound p ≤ ageDays now2 e.2) ∧
  (∀ x ∈ s1.to_delete, x ∈ s2.to_delete)

/-- The invariant survives dropping the head entry and growing `s2`. -/
theorem decisionLE_tail {p : Policy} {now2 : Int} {e : List Char × Int}
    {l : List (List Char × Int)} {s1 s2 s2' : RotState}
    (h : decisionLE p now2 (e :: l) s1 s2) (hsub : stateSub s2 s2') :
    decisionLE p now2 l s1 s2' := by
  obtain ⟨hw, hm, hd⟩ := h
  obtain ⟨sw, sm, sd⟩ := hsub
  refine ⟨fun w hw1 => ?_, fun m hm1 => ?_, fun x hx => sd x (hd x hx)⟩
  · rcases hw w hw1 with h' | h'
    · exact Or.inl (sw w h')
    · exact Or.inr fun e' he' => h' e' (List.mem_cons_of_mem _ he')
  · rcases hm m hm1 with h' | h'
    · exact Or.inl (sm m h')
    · exact Or.inr fun e' he' => h' e' (List.mem_cons_of_mem _ he')

/-- One step of the loop preserves the invariant, for a descending-sorted
entry list. -/
theorem decisionLE_step {p : Policy} {now1 now2 : Int} (h12 : now1 ≤ now2)
    {e : List Char × Int} {rest : List (List Char × Int)} {s1 s2 : RotState}
    (hhead : ∀ e' ∈ rest, e'.2 ≤ e.2)
    (hLE : decisionLE p now2 (e :: rest) s1 s2) :
    decisionLE p now2 rest (processEntry p now1 s1 e) (processEntry p now2 s2 e) := by
  have ha : ageDays now1 e.2 ≤ ageDays now2 e.2 := ageDays_mono_now h12
  have hsub2 := stateSub_processEntry p now2 s2 e
  by_cases hd1 : ageDays now1 e.2 < p.keep_days
  · rw [processEntry_daily hd1]
    exact decisionLE_tail hLE hsub2
  have hd2 : ¬ ageDays now2 e.2 < p.keep_days := by omega
  have hrest_age : ∀ e' ∈ rest, ∀ b : Int, b ≤ ageDays now2 e.2 → b ≤ ageDays now2 e'.2 :=
    fun e' he' b hb => le_trans hb (ageDays_anti_ts (hhead e' he'))
  by_cases hw1 : ageDays now1 e.2 < weekBound p ∧ weekKey e.2 ∉ s1.weekly_kept
  · -- the entry claims its week at `now1`
    rw [processEntry_week hd1 hw1.1 hw1.2]
    refine ⟨fun w hw => ?_, fun m hm => ?_, fun x hx => ?_⟩
    · rw [List.mem_append] at hw
      rcases hw with hold | hnew
      · rcases hLE.1 w hold with hmem | hdead
        · exact Or.inl (hsub2.1 w hmem)
        · exact Or.inr fun e' he' => hdead e' (List.mem_cons_of_mem _ he')
      · rw [List.mem_singleton] at hnew
        subst hnew
        by_cases hWb : weekBound p ≤ ageDays now2 e.2
        · exact Or.inr fun e' he' hk => hrest_age e' he' _ hWb
        · push_neg at hWb
          left
          by_cases hwin2 : weekKey e.2 ∈ s2.weekly_kept
          · exact hsub2.1 _ hwin2
          · rw [processEntry_week hd2 hWb hwin2]
            simp
    · rcases hLE.2.1 m hm with hmem | hdead
      · exact Or.inl (hsub2.2.1 m hmem)
      · exact Or.inr fun e' he' => hdead e' (List.mem_cons_of_mem _ he')
    · exact hsub2.2.2 x (hLE.2.2 x hx)
  · -- the entry falls through the weekly window at `now1` …
    have hw2 : ¬ (ageDays now2 e.2 < weekBound p ∧ weekKey e.2 ∉ s2.weekly_kept) := by
      rintro ⟨hlt, hnotin⟩
      have hwk1 : weekKey e.2 ∈ s1.weekly_kept := by
        by_contra hc
        exact hw1 ⟨lt_of_le_of_lt ha hlt, hc⟩
      rcases hLE.1 _ hwk1 with hmem | hdead
      · exact hnotin hmem
      · exact absurd (hdead e (List.mem_cons_self _ _) rfl) (not_le.mpr hlt)
    by_cases hm1 : ageDays now1 e.2 < monthBound p ∧ monthKey e.2 ∉ s1.monthly_kept
    · -- … and claims its month at `now1`
      rw [processEntry_month hd1 hw1 hm1.1 hm1.2]
      refine ⟨fun w hw => ?_, fun m hm => ?_, fun x hx => ?_⟩
      · rcases hLE.1 w hw with hmem | hdead
        · exact Or.inl (hsub2.1 w hmem)
        · exact Or.inr fun e' he' => hdead e' (List.mem_cons_of_mem _ he')
      · rw [List.mem_append] at hm
        rcases hm with hold | hnew
        · rcases hLE.2.1 m hold with hmem | hdead
          · exact Or.inl (hsub2.2.1 m hmem)
          · exact Or.inr fun e' he' => hdead e' (List.mem_cons_of_mem _ he')
        · rw [List.mem_singleton] at hnew
          subst hnew
          by_cases hMb : monthBound p ≤ ageDays now2 e.2
          · exact Or.inr fun e' he' hk => hrest_age e' he' _ hMb
          · push_neg at hMb
            left
            by_cases hmin2 : monthKey e.2 ∈ s2.monthly_kept
            · exact hsub2.2.1 _ hmin2
            · rw [processEntry_month hd2 hw2 hMb hmin2]
              simp
      · exact hsub2.2.2 x (hLE.2.2 x hx)
    · -- … and is scheduled for deletion at `now1`
      rw [processEntry_delete hd1 hw1 hm1]
      have hm2 : ¬ (ageDays now2 e.2 < monthBound p ∧ monthKey e.2 ∉ s2.monthly_kept) := by
        rintro ⟨hlt, hnotin⟩
        have hmk1 : monthKey e.2 ∈ s1.monthly_kept := by
          by_contra hc
          exact hm1 ⟨lt_of_le_of_lt ha hlt, hc⟩
        rcases hLE.2.1 _ hmk1 with hmem | hdead
        · exact hnotin hmem
        · exact absurd (hdead e (List.mem_cons_self _ _) rfl) (not_le.mpr hlt)
      refine ⟨fun w hw => ?_, fun m hm => ?_, fun x hx => ?_⟩
      · rcases hLE.1 w hw with hmem | hdead
        · exact Or.inl (hsub2.1 w hmem)
        · exact Or.inr fun e' he' => hdead e' (List.mem_cons_of_mem _ he')
      · rcases hLE.2.1 m hm with hmem | hdead
        · exact Or.inl (hsub2.2.1 m hmem)
        · exact Or.inr fun e' he' => hdead e' (List.mem_cons_of_mem _ he')
      · rw [List.mem_append] at hx
        rcases hx with hold | hnew
        · exact hsub2.2.2 x (hLE.2.2 x hold)
        · rw [List.mem_singleton] at hnew
          subst hnew
          rw [processEntry_delete hd2 hw2 hm2]
          simp

/-- Running the loop at a later `now` schedules every file the earlier run
scheduled, for a descending-sorted entry list. -/
theorem foldl_decision_mono (p : Policy) (now1 now2 : Int) (h12 : now1 ≤ now2) :
    ∀ (l : List (List Char × Int)) (s1 s2 : RotState),
      List.Pairwise (fun a b : List Char × Int => b.2 ≤ a.2) l →
      decisionLE p now2 l s1 s2 →
      ∀ x ∈ (l.foldl (processEntry p now1) s1).to_delete,
        x ∈ (l.foldl (processEntry p now2) s2).to_delete := by
  intro l
  induction l with
  | nil => intro s1 s2 _ hLE x hx; exact hLE.2.2 x hx
  | cons e rest ih =>
    intro s1 s2 hpw hLE
    rw [List.pairwise_cons] at hpw
    simp only [List.foldl_cons]
    exact ih _ _ hpw.2 (decisionLE_step h12 hpw.1 hLE)

/-! ### Concrete fixtures -/

/-- 2024-01-15 02:00:00 as seconds since epoch. -/
def tsJan15 : Int := daysFromCivil 2024 1 15 * 86400 + 2 * 3600

/-- 2024-01-14 02:00:00 (a Sunday, `%W` week 02 of 2024). -/
def tsJan14 : Int := daysFromCivil 2024 1 14 * 86400 + 2 * 3600

/-- 2024-01-10 02:00:00 (a Wednesday, `%W` week 02 of 2024). -/
def tsJan10 : Int := daysFromCivil 2024 1 10 * 86400 + 2 * 3600

/-- 2024-01-06 02:00:00 (a Saturday, `%W` week 01 of 2024). -/
def tsJan06 : Int := daysFromCivil 2024 1 6 * 86400 + 2 * 3600

/-- The reference `now`: 2024-01-15 03:00:00, making the four fixture
artifacts 0, 1, 5 and 9 days old. -/
def nowJan15 : Int := daysFromCivil 2024 1 15 * 86400 + 3 * 3600

/-- A mysql backup directory holding artifacts aged 0, 1, 5 and 9 days, all
dated through the filename convention (no sidecars). -/
def fsAges : FS :=
  { listing := ["mysql_app_20240115_020000.sql".data, "mysql_app_20240114_020000.sql".data,
                "mysql_app_20240110_020000.sql".data, "mysql_app_20240106_020000.sql".data],
    sidecar := fun _ => SidecarFile.absent,
    size := fun _ => 0 }

/-- The same four ages for a postgresql family. -/
def fsAgesPg : FS :=
  { listing := ["postgresql_app_20240115_020000.dump".data,
                "postgresql_app_20240114_020000.dump".data,
                "postgresql_app_20240110_020000.dump".data,
                "postgresql_app_20240106_020000.dump".data],
    sidecar := fun _ => SidecarFile.absent,
    size := fun _ => 0 }

/-! ### C1 -/

/-- C1, counterexample: with policy `{daily:1, weekly:1, monthly:0}` and
artifacts at ages 0, 1, 5, 9 days, the age-5 artifact lies in the weekly
window (`1 ≤ 5 < 8`) and shares its `%W` week bucket with the already-kept
age-1 artifact, yet the code does **not** expire it: it falls through to the
monthly check and is kept as the first entry of `2024-01` (even though
`keep_monthly = 0`).  Only the age-9 artifact is deleted, refuting both the
general statement and the claim's concrete scenario (which expects ages 5
and 9 expired). -/
theorem weekly_duplicate_kept_as_monthly_cex :
    (rotate_backups_decision "mysql" ⟨1, 1, 0⟩ nowJan15 fsAges).to_delete
        = ["mysql_app_20240106_020000.sql".data] ∧
    "mysql_app_20240110_020000.sql".data ∉
        (rotate_backups_decision "mysql" ⟨1, 1, 0⟩ nowJan15 fsAges).to_delete ∧
    (rotate_backups_decision "mysql" ⟨1, 1, 0⟩ nowJan15 fsAges).monthly_kept = [(2024, 1)] ∧
    (rotate_backups_decision "mysql" ⟨1, 1, 0⟩ nowJan15 fsAges).weekly_kept = [(2024, 2)] ∧
    weekKey tsJan10 = weekKey tsJan14 ∧
    ageDays nowJan15 tsJan10 = 5 ∧ ageDays nowJan15 tsJan14 = 1 ∧
    ageDays nowJan15 tsJan15 = 0 ∧ ageDays nowJan15 tsJan06 = 9 ∧
    weekBound ⟨1, 1, 0⟩ = 8 := by
  decide

/-- C1, amended: an entry in the weekly window whose week bucket is already
claimed is *not* necessarily expired — it falls through to the monthly rule:
whenever `keep_monthly ≥ 0` its age is also inside the monthly bound, so it
is kept (reason first-of-month) exactly when its month bucket is still
unclaimed, and expired only otherwise.  In the `{daily:1, weekly:1,
monthly:0}` scenario the decision therefore keeps ages 0, 1 and 5 and
expires only age 9. -/
theorem weekly_duplicate_falls_through_to_monthly (p : Policy) (now : Int) (s : RotState)
    (e : List Char × Int) (hmp : 0 ≤ p.keep_monthly)
    (hd : p.keep_days ≤ ageDays now e.2) (hw : ageDays now e.2 < weekBound p)
    (hin : weekKey e.2 ∈ s.weekly_kept) :
    processEntry p now s e =
      if monthKey e.2 ∈ s.monthly_kept then { s with to_delete := s.to_delete ++ [e.1] }
      else { s with monthly_kept := s.monthly_kept ++ [monthKey e.2] } := by
  have hd' : ¬ ageDays now e.2 < p.keep_days := not_lt.mpr hd
  have hw' : ¬ (ageDays now e.2 < weekBound p ∧ weekKey e.2 ∉ s.weekly_kept) := by
    rintro ⟨_, hni⟩
    exact hni hin
  have hMb : ageDays now e.2 < monthBound p := by
    unfold weekBound at hw
    unfold monthBound
    omega
  by_cases hmk : monthKey e.2 ∈ s.monthly_kept
  · rw [if_pos hmk, processEntry_delete hd' hw' (by rintro ⟨_, hni⟩; exact hni hmk)]
  · rw [if_neg hmk, processEntry_month hd' hw' hMb hmk]

/-- C1, witness for the amended theorem, at the scenario's age-5 entry. -/
theorem weekly_duplicate_falls_through_witness :
    processEntry ⟨1, 1, 0⟩ nowJan15
        ⟨[weekKey tsJan14], [], []⟩ ("mysql_app_20240110_020000.sql".data, tsJan10) =
      ⟨[weekKey tsJan14], [monthKey tsJan10], []⟩ :=
  Eq.trans
    (weekly_duplicate_falls_through_to_monthly ⟨1, 1, 0⟩ nowJan15
      ⟨[weekKey tsJan14], [], []⟩ ("mysql_app_20240110_020000.sql".data, tsJan10)
      (by decide) (by decide) (by decide) (by decide))
    (by decide)

/-! ### C2 -/

/-- C2: for a fixed directory and policy the rotation decision is monotone in
`now` — every file scheduled for deletion at `now1` is still scheduled at any
later `now2`; advancing `now` never moves an entry from expired back to
keep. -/
theorem rotate_monotone_expiry (db_type : String) (p : Policy) (fs : FS)
    (now1 now2 : Int) (h : now1 ≤ now2) (x : List Char)
    (hx : x ∈ (rotate_backups_decision db_type p now1 fs).to_delete) :
    x ∈ (rotate_backups_decision db_type p now2 fs).to_delete := by
  unfold rotate_backups_decision rotateDecision at hx ⊢
  refine foldl_decision_mono p now1 now2 h _ _ _ (sortDescBy_entries_pairwise _) ?_ x hx
  unfold decisionLE
  exact ⟨fun w hw => (nomatch hw), fun m hm => (nomatch hm), fun y hy => (nomatch hy)⟩

/-- C2, witness: the age-9 artifact expired at 2024-01-15 is still expired
30 days later. -/
theorem rotate_monotone_expiry_witness :
    nowJan15 ≤ nowJan15 + 2592000 ∧
    "postgresql_app_20240106_020000.dump".data ∈
      (rotate_backups_decision "postgresql" ⟨1, 1, 0⟩ nowJan15 fsAgesPg).to_delete ∧
    "postgresql_app_20240106_020000.dump".data ∈
      (rotate_backups_decision "postgresql" ⟨1, 1, 0⟩ (nowJan15 + 2592000) fsAgesPg).to_delete :=
  ⟨by decide, by decide,
    rotate_monotone_expiry "postgresql" ⟨1, 1, 0⟩ fsAgesPg nowJan15 (nowJan15 + 2592000)
      (by decide) "postgresql_app_20240106_020000.dump".data (by decide)⟩

/-! ### C3 -/

/-- A directory with a single artifact whose sidecar was never written
(e.g. a crash between artifact write and sidecar write). -/
def fsNoSidecar : FS :=
  { listing := ["mysql_orders_20240115_020000.sql".data],
    sidecar := fun _ => SidecarFile.absent,
    size := fun _ => 0 }

/-- C3, counterexample: an artifact with **no sidecar at all** is still
listed by the scanner — its filename parses under the naming convention, so
`_get_backup_date` dates it and both the rotation scan and `list_backups`
include it, refuting "an artifact exists for catalog and retention purposes
only once its sidecar is present". -/
theorem sidecarless_artifact_listed_cex :
    fsNoSidecar.sidecar "mysql_orders_20240115_020000.sql".data = SidecarFile.absent ∧
    ("mysql_orders_20240115_020000.sql".data, tsJan15) ∈ scanEntries "mysql" fsNoSidecar ∧
    (list_backups "mysql" nowJan15 fsNoSidecar).map BackupInfo.filename =
      ["mysql_orders_20240115_020000.sql".data] ∧
    (list_backups "mysql" nowJan15 fsNoSidecar).map BackupInfo.date = [some tsJan15] := by
  decide

/-- C3, amended: an artifact without a sidecar is invisible to the scanner
exactly when its filename **also** fails to parse; when the filename parses
(as every artifact produced by `backup`'s naming convention does, unless the
`.gz` suffix hides the timestamp inside the stem) the artifact is scanned
with the filename-derived date. -/
theorem sidecar_absent_filename_fallback (db_type : String) (fs : FS) (n : List Char)
    (hmem : n ∈ fs.listing) (hmatch : matchesScan db_type n = true)
    (habs : fs.sidecar n = SidecarFile.absent) :
    (∀ t, parseFilenameDate n = some t → (n, t) ∈ scanEntries db_type fs) ∧
    (parseFilenameDate n = none → ∀ t, (n, t) ∉ scanEntries db_type fs) := by
  constructor
  · intro t ht
    unfold scanEntries
    refine List.mem_filterMap.mpr ⟨n, List.mem_filter.mpr ⟨hmem, hmatch⟩, ?_⟩
    rw [habs]
    show (parseFilenameDate n).map _ = _
    rw [ht]
    rfl
  · intro hn t ht
    unfold scanEntries at ht
    obtain ⟨n', _, hmap⟩ := List.mem_filterMap.mp ht
    obtain ⟨t', ht', heq⟩ := Option.map_eq_some'.mp hmap
    injection heq with h1 h2
    subst h1
    rw [habs] at ht'
    have hpf : parseFilenameDate _ = some t' := ht'
    rw [hn] at hpf
    exact Option.noConfusion hpf

/-- C3/C4 shared observation, instantiated for C3: the artifact of
`fsNoSidecar` is scanned through the filename fallback. -/
theorem sidecar_absent_filename_fallback_witness :
    matchesScan "mysql" "mysql_orders_20240115_020000.sql".data = true ∧
    parseFilenameDate "mysql_orders_20240115_020000.sql".data = some tsJan15 ∧
    ("mysql_orders_20240115_020000.sql".data, tsJan15) ∈ scanEntries "mysql" fsNoSidecar :=
  ⟨by decide, by decide,
    (sidecar_absent_filename_fallback "mysql" fsNoSidecar
          "mysql_orders_20240115_020000.sql".data
          (by decide) (by decide) (by decide)).1 tsJan15 (by decide)⟩

/-! ### C4 -/

/-- A directory with a single convention-named artifact whose sidecar exists
but has no `timestamp` field. -/
def fsBadSidecar : FS :=
  { listing := ["mysql_orders_20240115_020000.sql".data],
    sidecar := fun _ => SidecarFile.present ⟨none⟩,
    size := fun _ => 0 }

/-- C4, counterexample: when a sidecar **exists** but lacks a parsable
`timestamp`, `_get_backup_date` raises inside the `try` block and returns
`None` — it never reaches the filename fallback.  The artifact's filename is
perfectly parseable, yet the artifact is undated: it is excluded from the
rotation scan and listed with a null date, refuting "such an artifact … is
still dated and classified". -/
theorem invalid_sidecar_excluded_cex :
    fsBadSidecar.sidecar "mysql_orders_20240115_020000.sql".data =
      SidecarFile.present ⟨none⟩ ∧
    parseFilenameDate "mysql_orders_20240115_020000.sql".data = some tsJan15 ∧
    get_backup_date "mysql_orders_20240115_020000.sql".data (SidecarFile.present ⟨none⟩) =
      none ∧
    scanEntries "mysql" fsBadSidecar = [] ∧
    (list_backups "mysql" nowJan15 fsBadSidecar).map BackupInfo.date = [none] := by
  decide

/-- C4, amended: the filename fallback runs **only when the sidecar file does
not exist**.  A sidecar that exists but is unreadable JSON, lacks the
`timestamp` key, or carries an unparsable timestamp value yields no date at
all (the exception is caught and `None` returned), regardless of the
filename. -/
theorem sidecar_invalid_yields_no_date (n : List Char) :
    get_backup_date n SidecarFile.corrupt = none ∧
    get_backup_date n (SidecarFile.present ⟨none⟩) = none ∧
    (∀ s, fromIso s = none → get_backup_date n (SidecarFile.present ⟨some s⟩) = none) ∧
    get_backup_date n SidecarFile.absent = parseFilenameDate n := by
  refine ⟨rfl, rfl, fun s hs => ?_, rfl⟩
  show fromIso s = none
  exact hs

/-- C4, witness: an unparsable timestamp value in an existing sidecar leaves
the artifact undated. -/
theorem sidecar_invalid_yields_no_date_witness :
    fromIso "not-a-timestamp".data = none ∧
    get_backup_date "mysql_orders_20240115_020000.sql".data
      (SidecarFile.present ⟨some "not-a-timestamp".data⟩) = none :=
  ⟨by decide,
    (sidecar_invalid_yields_no_date "mysql_orders_20240115_020000.sql".data).2.2.1
      "not-a-timestamp".data (by decide)⟩

/-! ### C5 -/

/-- Permission failure on the first artifact only. -/
def failFirst : List Char → Bool :=
  fun f => decide (f = "mysql_a_20240101_000000.sql".data)

/-- Directory holding two expired artifact/sidecar pairs. -/
def dirTwoPairs : DirState :=
  ⟨["mysql_a_20240101_000000.sql".data, "mysql_a_20240101_000000.sql.json".data,
    "mysql_b_20240102_000000.sql".data, "mysql_b_20240102_000000.sql.json".data]⟩

/-- C5, counterexample: the deletion loop wraps nothing in `try`; a
permission error on the first expired artifact propagates immediately — the
second expired artifact is never processed (it is still present, along with
its sidecar, in the directory state the exception escapes with), and no
per-artifact error collection exists. -/
theorem deletion_failure_aborts_cex :
    runDeletions failFirst
        ["mysql_a_20240101_000000.sql".data, "mysql_b_20240102_000000.sql".data]
        dirTwoPairs 0 =
      DelOutcome.aborted 0 "mysql_a_20240101_000000.sql".data dirTwoPairs ∧
    "mysql_b_20240102_000000.sql".data ∈ dirTwoPairs.present ∧
    "mysql_b_20240102_000000.sql.json".data ∈ dirTwoPairs.present := by
  decide

/-- C5, amended: a deletion failure (permission or filesystem error raised by
`unlink`) halts the whole deletion loop at that artifact: the remaining
decision is not processed and the failure is not collected — the exception
aborts `rotate_backups` with the deletion counter as it stood. -/
theorem deletion_failure_halts_loop (failing : List Char → Bool) (f : List Char)
    (rest : List (List Char)) (d : DirState) (cnt : Nat)
    (hp : f ∈ d.present) (hf : failing f = true) :
    runDeletions failing (f :: rest) d cnt = DelOutcome.aborted cnt f d := by
  unfold runDeletions
  rw [if_pos hp, if_pos hf]

/-- C5, witness. -/
theorem deletion_failure_halts_loop_witness :
    "mysql_a_20240101_000000.sql".data ∈ dirTwoPairs.present ∧
    failFirst "mysql_a_20240101_000000.sql".data = true ∧
    runDeletions failFirst
        ["mysql_a_20240101_000000.sql".data, "mysql_b_20240102_000000.sql".data]
        dirTwoPairs 5 =
      DelOutcome.aborted 5 "mysql_a_20240101_000000.sql".data dirTwoPairs :=
  ⟨by decide, by decide,
    deletion_failure_halts_loop failFirst "mysql_a_20240101_000000.sql".data
      ["mysql_b_20240102_000000.sql".data] dirTwoPairs 5 (by decide) (by decide)⟩

/-! ### C6 -/

/-- C6, counterexample: re-running the deletion loop for the same decision
against an already-cleaned directory does **not** report zero additional
deletions and no errors — `filepath.unlink()` raises `FileNotFoundError` on
the very first (absent) artifact and the loop aborts. -/
theorem missing_file_deletion_error_cex :
    runDeletions (fun _ => false) ["mysql_a_20240101_000000.sql".data] ⟨[]⟩ 0 =
      DelOutcome.aborted 0 "mysql_a_20240101_000000.sql".data ⟨[]⟩ ∧
    runDeletions (fun _ => false) ["mysql_a_20240101_000000.sql".data] ⟨[]⟩ 0 ≠
      DelOutcome.completed 0 ⟨[]⟩ := by
  decide

/-- C6, amended: deletion is **not** idempotent: an artifact file that is
already absent when its deletion is attempted makes `unlink` raise
`FileNotFoundError`, aborting the loop at that artifact rather than being
treated as already-deleted. -/
theorem missing_file_unlink_raises (failing : List Char → Bool) (f : List Char)
    (rest : List (List Char)) (d : DirState) (cnt : Nat) (hp : f ∉ d.present) :
    runDeletions failing (f :: rest) d cnt = DelOutcome.aborted cnt f d := by
  unfold runDeletions
  rw [if_neg hp]

/-- C6, witness. -/
theorem missing_file_unlink_raises_witness :
    "mysql_b_20240102_000000.sql".data ∉ (⟨[]⟩ : DirState).present ∧
    runDeletions (fun _ => false) ["mysql_b_20240102_000000.sql".data] ⟨[]⟩ 3 =
      DelOutcome.aborted 3 "mysql_b_20240102_000000.sql".data ⟨[]⟩ :=
  ⟨by decide,
    missing_file_unlink_raises (fun _ => false) "mysql_b_20240102_000000.sql".data
      [] ⟨[]⟩ 3 (by decide)⟩

/-! ### C7 -/

/-- Two artifacts with identical filename timestamps, enumerated with the
lexicographically smaller name first. -/
def fsTie : FS :=
  { listing := ["mysql_a_20240115_020000.sql".data, "mysql_b_20240115_020000.sql".data],
    sidecar := fun _ => SidecarFile.absent,
    size := fun _ => 0 }

/-- C7, counterexample: for two entries with identical `created_at`,
`list_backups` does **not** put the lexicographically greater filename first:
the sort is stable, so ties keep the directory enumeration order — here the
smaller name `mysql_a_…` stays ahead of the greater `mysql_b_…`. -/
theorem tie_order_is_scan_order_cex :
    (list_backups "mysql" nowJan15 fsTie).map BackupInfo.filename =
      ["mysql_a_20240115_020000.sql".data, "mysql_b_20240115_020000.sql".data] ∧
    lexLt "mysql_a_20240115_020000.sql".data "mysql_b_20240115_020000.sql".data = true ∧
    (list_backups "mysql" nowJan15 fsTie).map BackupInfo.date =
      [some tsJan15, some tsJan15] := by
  decide

/-- C7, amended: `list_backups` returns the scanned rows sorted by
`created_at` descending, with missing dates ordered below every real date;
the output is a permutation of the scan, and ties (any fixed date value) keep
the scanner's enumeration order — the stable sort, not a filename
tie-break. -/
theorem list_backups_sorted_desc_stable (db_type : String) (now : Int) (fs : FS)
    (d : Option Int) :
    List.Pairwise (fun a b : BackupInfo => optLtDate a.date b.date = false)
      (list_backups db_type now fs) ∧
    List.Perm (list_backups db_type now fs) (scanInfos db_type now fs) ∧
    (list_backups db_type now fs).filter (fun e => decide (e.date = d)) =
      (scanInfos db_type now fs).filter (fun e => decide (e.date = d)) := by
  unfold list_backups
  refine ⟨?_, sortDescBy_perm _ _, ?_⟩
  · exact @pairwise_sortDescBy BackupInfo
      (fun a b => optLtDate a.date b.date = false)
      (fun a b => optLtDate a.date b.date)
      (fun a b h => h) (fun a b h => optLtDate_asymm h)
      (fun a b c hab hbc => optLtDate_neg_trans hab hbc)
      (scanInfos db_type now fs)
  · apply filter_sortDescBy
    intro a b ha hb
    have ha' : a.date = d := of_decide_eq_true ha
    have hb' : b.date = d := of_decide_eq_true hb
    rw [ha', hb']
    exact optLtDate_irrefl d

/-! ### C8 -/

/-- A directory holding one family-prefixed `.sql` file whose stem has only
two `_`-separated parts and no sidecar: it cannot be dated at all. -/
def fsUndatable : FS :=
  { listing := ["mysql_data.sql".data],
    sidecar := fun _ => SidecarFile.absent,
    size := fun _ => 7 }

/-- C8: a file matching the family prefix and a recognised extension but with
no recoverable date (no usable sidecar, no parseable filename timestamp) is
excluded from the rotation decision — it never appears among the scanned
entries, is never scheduled for deletion (and can claim no keep bucket) —
while `list_backups` still reports it, with a null date and age. -/
theorem undatable_file_excluded_and_listed (db_type : String) (p : Policy) (now : Int)
    (fs : FS) (n : List Char) (hmem : n ∈ fs.listing)
    (hmatch : matchesScan db_type n = true)
    (hdate : get_backup_date n (fs.sidecar n) = none) :
    (∀ t, (n, t) ∉ scanEntries db_type fs) ∧
    n ∉ (rotate_backups_decision db_type p now fs).to_delete ∧
    ({ filename := n, date := none, age_days := none, size := fs.size n } : BackupInfo) ∈
      list_backups db_type now fs := by
  have hscan : ∀ t, (n, t) ∉ scanEntries db_type fs := by
    intro t ht
    obtain ⟨n', _, hmap⟩ := List.mem_filterMap.mp ht
    obtain ⟨t', ht', heq⟩ := Option.map_eq_some'.mp hmap
    injection heq with h1 h2
    subst h1
    rw [hdate] at ht'
    exact Option.noConfusion ht'
  refine ⟨hscan, ?_, ?_⟩
  · intro hdel
    unfold rotate_backups_decision rotateDecision at hdel
    rcases foldl_to_delete_cases p now _ _ n hdel with h | ⟨t, ht⟩
    · cases h
    · exact hscan t ((sortDescBy_perm _ _).mem_iff.mp ht)
  · unfold list_backups
    rw [(sortDescBy_perm _ _).mem_iff]
    unfold scanInfos
    refine List.mem_map.mpr ⟨n, List.mem_filter.mpr ⟨hmem, hmatch⟩, ?_⟩
    simp only [hdate, Option.map_none']

/-- C8, witness: a family-prefixed `.sql` file with no sidecar and a
non-conforming name (`mysql_data.sql` splits into only two parts). -/
theorem undatable_file_excluded_and_listed_witness :
    "mysql_data.sql".data ∈ fsUndatable.listing ∧
    matchesScan "mysql" "mysql_data.sql".data = true ∧
    get_backup_date "mysql_data.sql".data (fsUndatable.sidecar "mysql_data.sql".data) =
      none ∧
    (∀ t, ("mysql_data.sql".data, t) ∉ scanEntries "mysql" fsUndatable) ∧
    "mysql_data.sql".data ∉
      (rotate_backups_decision "mysql" ⟨1, 1, 0⟩ nowJan15 fsUndatable).to_delete ∧
    ({ filename := "mysql_data.sql".data, date := none, age_days := none,
        size := 7 } : BackupInfo) ∈ list_backups "mysql" nowJan15 fsUndatable :=
  ⟨by decide, by decide, by decide,
    (undatable_file_excluded_and_listed "mysql" ⟨1, 1, 0⟩ nowJan15 fsUndatable
      "mysql_data.sql".data (by decide) (by decide) (by decide)).1,
    (undatable_file_excluded_and_listed "mysql" ⟨1, 1, 0⟩ nowJan15 fsUndatable
      "mysql_data.sql".data (by decide) (by decide) (by decide)).2.1,
    (undatable_file_excluded_and_listed "mysql" ⟨1, 1, 0⟩ nowJan15 fsUndatable
      "mysql_data.sql".data (by decide) (by decide) (by decide)).2.2⟩

/-! ### C9 -/

/-- C9: every failure path of `_compress_file` (missing source, uncreatable
destination, streamed-copy I/O error) raises before `filepath.unlink()`, so
the raw file is still present in the resulting directory; only the fully
successful path removes the raw file, and then the compressed
`src + ".gz"` file is what remains. -/
theorem compress_failure_keeps_raw (files : List (List Char)) (src : List Char)
    (dstCreatable copyOk : Bool) (hs : src ∈ files) :
    (∀ e, compress_file files src dstCreatable copyOk = CompressResult.raised e →
      src ∈ e) ∧
    (∀ fl out, compress_file files src dstCreatable copyOk = CompressResult.done fl out →
      src ∉ fl ∧ out = src ++ ".gz".data ∧ out ∈ fl) := by
  have hne : src ≠ src ++ ".gz".data := by
    intro h
    have hlen := congrArg List.length h
    simp at hlen
  unfold compress_file
  rw [if_neg (not_not_intro hs)]
  by_cases hdc : dstCreatable = true
  · rw [if_neg (not_not_intro hdc)]
    by_cases hco : copyOk = true
    · rw [if_neg (not_not_intro hco)]
      refine ⟨fun e he => CompressResult.noConfusion he, fun fl out h => ?_⟩
      injection h with hfl hout
      subst hfl
      subst hout
      refine ⟨?_, rfl, List.mem_append_right _ (List.mem_singleton.mpr rfl)⟩
      intro hmem
      rcases List.mem_append.mp hmem with hin | hin
      · have := of_decide_eq_true (List.mem_filter.mp hin).2
        exact this rfl
      · exact hne (List.mem_singleton.mp hin)
    · rw [if_pos hco]
      refine ⟨fun e he => ?_, fun fl out h => CompressResult.noConfusion h⟩
      injection he with h
      exact h ▸ List.mem_append_left _ hs
  · rw [if_pos hdc]
    refine ⟨fun e he => ?_, fun fl out h => CompressResult.noConfusion h⟩
    injection he with h
    exact h ▸ hs

/-- C9, witness: a copy failure leaves the raw file in place; success
replaces it with the `.gz` file. -/
theorem compress_failure_keeps_raw_witness :
    "mysql_app_20240115_020000.sql".data ∈ ["mysql_app_20240115_020000.sql".data] ∧
    compress_file ["mysql_app_20240115_020000.sql".data]
        "mysql_app_20240115_020000.sql".data true false =
      CompressResult.raised ["mysql_app_20240115_020000.sql".data,
        "mysql_app_20240115_020000.sql.gz".data] ∧
    "mysql_app_20240115_020000.sql".data ∈
      ["mysql_app_20240115_020000.sql".data, "mysql_app_20240115_020000.sql.gz".data] :=
  ⟨by decide, by decide,
    (compress_failure_keeps_raw ["mysql_app_20240115_020000.sql".data]
        "mysql_app_20240115_020000.sql".data true false (by decide)).1
      _ (by decide)⟩

/-! ### C10 -/

/-- C10: for `db_type = "mongodb"` the gzip compression stage never runs —
the result of `backup` is independent of the `compress` option and of the
compressor environment — and the sidecar's `compressed` field is always
written `true` (the capture itself produced gzip output), with the output
file keeping its raw `.archive` name. -/
theorem mongodb_backup_no_gzip_stage (db_name ts : List Char) (compress captureOk : Bool)
    (files : List (List Char)) (dc co dc' co' : Bool) :
    backupRun "mongodb" db_name ts compress captureOk files dc co =
      backupRun "mongodb" db_name ts true captureOk files dc' co' ∧
    ∀ fl out md, backupRun "mongodb" db_name ts compress captureOk files dc co =
        some (fl, out, md) →
      md.compressed = true ∧
      out = "mongodb".data ++ '_' :: (db_name ++ '_' :: (ts ++ ".archive".data)) := by
  constructor
  · simp [backupRun]
  · intro fl out md h
    by_cases hc : captureOk
    · simp [backupRun, hc, extensionFor] at h
      obtain ⟨_, h2, h3⟩ := h
      exact ⟨h3 ▸ rfl, h2.symm⟩
    · simp [backupRun, hc] at h

/-- C10, witness. -/
theorem mongodb_backup_no_gzip_stage_witness :
    backupRun "mongodb" "orders".data "20240115_020000".data false true [] false false =
      some (["mongodb_orders_20240115_020000.archive".data,
             "mongodb_orders_20240115_020000.archive.json".data],
            "mongodb_orders_20240115_020000.archive".data,
            { database_type := "mongodb",
              filename := "mongodb_orders_20240115_020000.archive".data,
              compressed := true }) ∧
    ({ database_type := "mongodb",
       filename := "mongodb_orders_20240115_020000.archive".data,
       compressed := true } : Metadata).compressed = true :=
  have h := (mongodb_backup_no_gzip_stage "orders".data "20240115_020000".data false true
      [] false false false false).2
    ["mongodb_orders_20240115_020000.archive".data,
     "mongodb_orders_20240115_020000.archive.json".data]
    "mongodb_orders_20240115_020000.archive".data
    { database_type := "mongodb",
      filename := "mongodb_orders_20240115_020000.archive".data,
      compressed := true }
    (by decide)
  ⟨by decide, h.1⟩

end DBBackup
